import Mathlib

/-!
Verification development for the AI explanation pipeline of
`ext/js/display/display-ai.js` (class `DisplayAi`).

The JavaScript source is shallowly embedded: pure functions become Lean
functions over `String` / `List Char` / `List Nat` (bytes), the stateful
display object becomes an explicit state record with one Lean function per
synchronous block of the source, and the event-stream reader becomes a
state machine fed with byte chunks.  JavaScript runtime facilities used by
the source (`JSON.parse`, `String.prototype.trim`, `TextDecoder`) are
modelled directly after their standard semantics.
-/

namespace DisplayAi

/-! ## JavaScript whitespace and trimming

`String.prototype.trim` / `trimEnd` strip the ECMAScript WhiteSpace and
LineTerminator characters; `JSON.parse` itself only skips the four JSON
whitespace characters (space, tab, line feed, carriage return). -/

/-- ECMAScript whitespace (as stripped by `trim` / `trimEnd`). -/
def jsWs (c : Char) : Bool :=
  c.toNat = 0x9 || c.toNat = 0xA || c.toNat = 0xB || c.toNat = 0xC ||
  c.toNat = 0xD || c.toNat = 0x20 || c.toNat = 0xA0 || c.toNat = 0x1680 ||
  (0x2000 ≤ c.toNat && c.toNat ≤ 0x200A) ||
  c.toNat = 0x2028 || c.toNat = 0x2029 || c.toNat = 0x202F ||
  c.toNat = 0x205F || c.toNat = 0x3000 || c.toNat = 0xFEFF

/-- JSON grammar whitespace (skipped by `JSON.parse` between tokens). -/
def jsonWs (c : Char) : Bool :=
  c.toNat = 0x9 || c.toNat = 0xA || c.toNat = 0xD || c.toNat = 0x20

/-- `String.prototype.trimStart` on a character list. -/
def jsTrimStart (l : List Char) : List Char := l.dropWhile jsWs

/-- `String.prototype.trimEnd` on a character list. -/
def jsTrimEnd (l : List Char) : List Char := (l.reverse.dropWhile jsWs).reverse

/-- `String.prototype.trim` on a character list. -/
def jsTrimL (l : List Char) : List Char := jsTrimEnd (jsTrimStart l)

/-- `String.prototype.trim`. -/
def jsTrim (s : String) : String := String.mk (jsTrimL s.data)

/-! ## JSON values and `JSON.parse`

`JSON.parse` is embedded as a fuel-indexed recursive-descent parser over
`List Char`, following the strict JSON grammar (ECMA-404 as implemented by
JavaScript).  Numbers are kept as their source lexeme: no claim below
inspects numeric values, only their presence and type.  `\uXXXX` escapes
naming lone surrogates are replaced by U+FFFD (Lean `Char` holds scalar
values only); no claim depends on such inputs. -/

inductive Json where
  | obj (members : List (String × Json)) : Json
  | arr (elems : List Json) : Json
  | str (s : String) : Json
  | num (lexeme : String) : Json
  | bool (b : Bool) : Json
  | null : Json

/-- Skip JSON whitespace. -/
def skipWs (s : List Char) : List Char := s.dropWhile jsonWs

def isJDigit (c : Char) : Bool := 0x30 ≤ c.toNat && c.toNat ≤ 0x39

def hexVal (c : Char) : Option Nat :=
  let n := c.toNat
  if 0x30 ≤ n && n ≤ 0x39 then some (n - 0x30)
  else if 0x61 ≤ n && n ≤ 0x66 then some (n - 0x57)
  else if 0x41 ≤ n && n ≤ 0x46 then some (n - 0x37)
  else none

/-- A Unicode scalar value as a `Char`, defaulting to U+FFFD. -/
def mkChar (n : Nat) : Char :=
  if n.isValidChar then Char.ofNat n else Char.ofNat 0xFFFD

/-- Body of a JSON string literal (after the opening quote), with escape
processing; returns the decoded characters and the input after the
closing quote. -/
def parseStrBody (fuel : Nat) (s : List Char) : Option (List Char × List Char) :=
  match fuel with
  | 0 => none
  | fuel + 1 =>
    match s with
    | [] => none
    | '"' :: r => some ([], r)
    | '\\' :: r =>
      match r with
      | '"' :: r2 => (parseStrBody fuel r2).map (fun p => ('"' :: p.1, p.2))
      | '\\' :: r2 => (parseStrBody fuel r2).map (fun p => ('\\' :: p.1, p.2))
      | '/' :: r2 => (parseStrBody fuel r2).map (fun p => ('/' :: p.1, p.2))
      | 'b' :: r2 => (parseStrBody fuel r2).map (fun p => (mkChar 0x8 :: p.1, p.2))
      | 'f' :: r2 => (parseStrBody fuel r2).map (fun p => (mkChar 0xC :: p.1, p.2))
      | 'n' :: r2 => (parseStrBody fuel r2).map (fun p => ('\n' :: p.1, p.2))
      | 'r' :: r2 => (parseStrBody fuel r2).map (fun p => (mkChar 0xD :: p.1, p.2))
      | 't' :: r2 => (parseStrBody fuel r2).map (fun p => ('\t' :: p.1, p.2))
      | 'u' :: h1 :: h2 :: h3 :: h4 :: r2 =>
        match hexVal h1, hexVal h2, hexVal h3, hexVal h4 with
        | some a, some b, some c, some d =>
          let cp := a * 4096 + b * 256 + c * 16 + d
          if 0xD800 ≤ cp && cp ≤ 0xDBFF then
            -- high surrogate: pairs with a following \uDC00-\uDFFF; unpaired
            -- surrogates become U+FFFD (Lean chars are scalar values)
            match r2 with
            | '\\' :: 'u' :: g1 :: g2 :: g3 :: g4 :: r3 =>
              match hexVal g1, hexVal g2, hexVal g3, hexVal g4 with
              | some a2, some b2, some c2, some d2 =>
                let cp2 := a2 * 4096 + b2 * 256 + c2 * 16 + d2
                if 0xDC00 ≤ cp2 && cp2 ≤ 0xDFFF then
                  (parseStrBody fuel r3).map
                    (fun p => (mkChar (0x10000 + (cp - 0xD800) * 1024 + (cp2 - 0xDC00)) :: p.1, p.2))
                else
                  (parseStrBody fuel r3).map
                    (fun p => (mkChar 0xFFFD :: mkChar cp2 :: p.1, p.2))
              | _, _, _, _ => none
            | _ => (parseStrBody fuel r2).map (fun p => (mkChar 0xFFFD :: p.1, p.2))
          else if 0xDC00 ≤ cp && cp ≤ 0xDFFF then
            (parseStrBody fuel r2).map (fun p => (mkChar 0xFFFD :: p.1, p.2))
          else
            (parseStrBody fuel r2).map (fun p => (mkChar cp :: p.1, p.2))
        | _, _, _, _ => none
      | _ => none
    | c :: r => if c.toNat < 0x20 then none else (parseStrBody fuel r).map (fun p => (c :: p.1, p.2))

/-- Fraction part of a JSON number (`.` followed by at least one digit),
or empty when the input does not start with `.`. -/
def parseFrac : List Char → Option (List Char × List Char)
  | '.' :: r =>
    if r.takeWhile isJDigit = [] then none
    else some (('.' : Char) :: r.takeWhile isJDigit, r.dropWhile isJDigit)
  | s => some ([], s)

/-- Exponent part of a JSON number (`e`/`E`, optional sign, at least one
digit), or empty when the input does not start with `e`/`E`. -/
def parseExp : List Char → Option (List Char × List Char)
  | 'e' :: '+' :: r =>
    if r.takeWhile isJDigit = [] then none
    else some (('e' : Char) :: '+' :: r.takeWhile isJDigit, r.dropWhile isJDigit)
  | 'e' :: '-' :: r =>
    if r.takeWhile isJDigit = [] then none
    else some (('e' : Char) :: '-' :: r.takeWhile isJDigit, r.dropWhile isJDigit)
  | 'e' :: r =>
    if r.takeWhile isJDigit = [] then none
    else some (('e' : Char) :: r.takeWhile isJDigit, r.dropWhile isJDigit)
  | 'E' :: '+' :: r =>
    if r.takeWhile isJDigit = [] then none
    else some (('E' : Char) :: '+' :: r.takeWhile isJDigit, r.dropWhile isJDigit)
  | 'E' :: '-' :: r =>
    if r.takeWhile isJDigit = [] then none
    else some (('E' : Char) :: '-' :: r.takeWhile isJDigit, r.dropWhile isJDigit)
  | 'E' :: r =>
    if r.takeWhile isJDigit = [] then none
    else some (('E' : Char) :: r.takeWhile isJDigit, r.dropWhile isJDigit)
  | s => some ([], s)

/-- JSON number lexeme starting the input; returns the lexeme and the rest. -/
def parseNum (s : List Char) : Option (Json × List Char) :=
  let (sign, s1) : List Char × List Char :=
    match s with
    | '-' :: r => (['-'], r)
    | _ => ([], s)
  match s1 with
  | [] => none
  | c :: r =>
    if c = '0' then
      numTail sign ['0'] r
    else if isJDigit c then
      numTail sign (c :: r.takeWhile isJDigit) (r.dropWhile isJDigit)
    else none
where
  /-- Optional fraction and exponent after the integer part. -/
  numTail (sign intPart s : List Char) : Option (Json × List Char) :=
    match parseFrac s with
    | none => none
    | some (fracPart, s2) =>
      match parseExp s2 with
      | none => none
      | some (expPart, s3) =>
        some (.num (String.mk (sign ++ intPart ++ fracPart ++ expPart)), s3)

mutual

/-- One JSON value starting at the input (after optional whitespace). -/
def parseVal (fuel : Nat) (s : List Char) : Option (Json × List Char) :=
  match fuel with
  | 0 => none
  | fuel + 1 =>
    match skipWs s with
    | '{' :: r =>
      match skipWs r with
      | '}' :: r2 => some (.obj [], r2)
      | _ =>
        match parseMembers fuel r [] with
        | some (kvs, r2) => some (.obj kvs, r2)
        | none => none
    | '[' :: r =>
      match skipWs r with
      | ']' :: r2 => some (.arr [], r2)
      | _ =>
        match parseElems fuel r [] with
        | some (xs, r2) => some (.arr xs, r2)
        | none => none
    | '"' :: r =>
      match parseStrBody (r.length + 1) r with
      | some (cs, r2) => some (.str (String.mk cs), r2)
      | none => none
    | 't' :: 'r' :: 'u' :: 'e' :: r => some (.bool true, r)
    | 'f' :: 'a' :: 'l' :: 's' :: 'e' :: r => some (.bool false, r)
    | 'n' :: 'u' :: 'l' :: 'l' :: r => some (.null, r)
    | other => parseNum other

/-- Members of an object, after the opening `{` (input known non-empty-object). -/
def parseMembers (fuel : Nat) (s : List Char) (acc : List (String × Json)) :
    Option (List (String × Json) × List Char) :=
  match fuel with
  | 0 => none
  | fuel + 1 =>
    match skipWs s with
    | '"' :: r =>
      match parseStrBody (r.length + 1) r with
      | none => none
      | some (k, r2) =>
        match skipWs r2 with
        | ':' :: r3 =>
          match parseVal fuel r3 with
          | none => none
          | some (v, r4) =>
            match skipWs r4 with
            | ',' :: r5 => parseMembers fuel r5 (acc ++ [(String.mk k, v)])
            | '}' :: r5 => some (acc ++ [(String.mk k, v)], r5)
            | _ => none
        | _ => none
    | _ => none

/-- Elements of an array, after the opening `[` (input known non-empty-array). -/
def parseElems (fuel : Nat) (s : List Char) (acc : List Json) :
    Option (List Json × List Char) :=
  match fuel with
  | 0 => none
  | fuel + 1 =>
    match parseVal fuel s with
    | none => none
    | some (v, r) =>
      match skipWs r with
      | ',' :: r2 => parseElems fuel r2 (acc ++ [v])
      | ']' :: r2 => some (acc ++ [v], r2)
      | _ => none

end

/-- `JSON.parse` on a character list: one value, then only whitespace. -/
def jsonParseL (s : List Char) : Option Json :=
  match parseVal (s.length + 1) s with
  | some (v, r) => if skipWs r = [] then some v else none
  | none => none

/-- `JSON.parse`, `none` standing for a thrown `SyntaxError`. -/
def jsonParse (s : String) : Option Json := jsonParseL s.data

/-! ## `_tryParseJson` (display-ai.js lines 218-228) -/

/-- `_tryParseJson`: trim, cheap structural pre-check (starts with `{`, ends
with `}`), then `JSON.parse`; `none` both for a failed pre-check and for a
parse exception.  The `typeof text !== 'string'` guard of the source is
subsumed by typing.  Total, hence "never throws". -/
def tryParseJson (text : String) : Option Json :=
  let trimmed := jsTrimL text.data
  if trimmed.head? = some '{' ∧ trimmed.getLast? = some '}' then
    jsonParseL trimmed
  else none

/-! ## `_getStreamDeltaContent` (display-ai.js lines 335-360) -/

/-- `typeof v === 'object' && v !== null` for a parsed JSON value: objects
and arrays qualify. -/
def jsIsObject : Json → Bool
  | .obj _ => true
  | .arr _ => true
  | _ => false

/-- JavaScript property lookup on an object built by `JSON.parse`: with
duplicate keys the last assignment wins; arrays and primitives have no
(relevant) named properties. -/
def jLookup : List (String × Json) → String → Option Json
  | [], _ => none
  | (k, v) :: rest, key =>
    match jLookup rest key with
    | some r => some r
    | none => if k = key then some v else none

/-- `data.name` for a parsed JSON value (`undefined` is `none`). -/
def jGet : Json → String → Option Json
  | .obj kvs, key => jLookup kvs key
  | _, _ => none

/-- `_getStreamDeltaContent`: extract `choices[0].delta.content`, falling
back to `choices[0].message.content`, defensively type-checking each step;
empty string when anything is missing or mistyped. -/
def getStreamDeltaContent (data : Json) : String :=
  if jsIsObject data then
    match jGet data "choices" with
    | some (.arr (choice0 :: _)) =>
      if jsIsObject choice0 then
        let fromDelta : Option String :=
          match jGet choice0 "delta" with
          | some d =>
            if jsIsObject d then
              match jGet d "content" with
              | some (.str s) => some s
              | _ => none
            else none
          | _ => none
        match fromDelta with
        | some s => s
        | none =>
          match jGet choice0 "message" with
          | some m =>
            if jsIsObject m then
              match jGet m "content" with
              | some (.str s) => s
              | _ => ""
            else ""
          | _ => ""
      else ""
    | _ => ""
  else ""

/-! ## Incremental UTF-8 decoding

Model of the browser `TextDecoder('utf-8')` used with `{stream: true}`
(display-ai.js lines 279, 287): bytes of an incomplete multi-byte sequence
are retained between chunks; invalid input decodes to U+FFFD (the exact
number of replacement characters for pathological invalid sequences is
simplified relative to WHATWG, which no claim depends on).  The source
never flushes the decoder, so trailing pending bytes are simply dropped. -/

/-- Total length of a UTF-8 sequence begun by this lead byte (0: invalid lead). -/
def utf8Needed (lead : Nat) : Nat :=
  if 0xC2 ≤ lead ∧ lead ≤ 0xDF then 2
  else if 0xE0 ≤ lead ∧ lead ≤ 0xEF then 3
  else if 0xF0 ≤ lead ∧ lead ≤ 0xF4 then 4
  else 0

/-- Code point of a complete 2-4 byte sequence. -/
def utf8CodePoint : List Nat → Nat
  | [l, b1] => (l - 0xC0) * 64 + (b1 - 0x80)
  | [l, b1, b2] => (l - 0xE0) * 4096 + (b1 - 0x80) * 64 + (b2 - 0x80)
  | [l, b1, b2, b3] => (l - 0xF0) * 262144 + (b1 - 0x80) * 4096 + (b2 - 0x80) * 64 + (b3 - 0x80)
  | _ => 0xFFFD

/-- Char for a completed sequence, U+FFFD for overlong/surrogate/out-of-range. -/
def utf8Finish (p : List Nat) : Char :=
  let cp := utf8CodePoint p
  let ok : Bool :=
    match p.length with
    | 2 => decide (0x80 ≤ cp)
    | 3 => decide (0x800 ≤ cp) && !(decide (0xD800 ≤ cp) && decide (cp ≤ 0xDFFF))
    | 4 => decide (0x10000 ≤ cp) && decide (cp ≤ 0x10FFFF)
    | _ => false
  if ok then mkChar cp else mkChar 0xFFFD

/-- Push one byte into the decoder: new pending bytes and emitted characters. -/
def pushByte (p : List Nat) (b : Nat) : List Nat × List Char :=
  match p with
  | [] =>
    if b ≤ 0x7F then ([], [mkChar b])
    else if 0 < utf8Needed b then ([b], [])
    else ([], [mkChar 0xFFFD])
  | lead :: _ =>
    if 0x80 ≤ b ∧ b ≤ 0xBF then
      if (p ++ [b]).length = utf8Needed lead then ([], [utf8Finish (p ++ [b])])
      else (p ++ [b], [])
    else
      -- pending sequence invalidated: one replacement, then b afresh
      if b ≤ 0x7F then ([], [mkChar 0xFFFD, mkChar b])
      else if 0 < utf8Needed b then ([b], [mkChar 0xFFFD])
      else ([], [mkChar 0xFFFD, mkChar 0xFFFD])

/-- Push a whole chunk of bytes (`decoder.decode(value, {stream: true})`). -/
def decPush : List Nat → List Nat → List Nat × List Char
  | p, [] => (p, [])
  | p, b :: bs =>
    ((decPush (pushByte p b).1 bs).1, (pushByte p b).2 ++ (decPush (pushByte p b).1 bs).2)

/-! ## The streaming read loop (`_fetchCompletionStreaming`, lines 278-320)

State of the loop: decoder pending bytes, `buffer` (text after the last
newline), `result` (accumulated delta text), plus two observation traces —
the raw complete lines consumed, and the arguments of the `onText` calls —
and a `finished` flag recording that the `[DONE]` early `return` ran.
After that `return` the remaining local `buffer` and decoder state are
dead in the source (the function has exited), so the model canonicalises
them to `[]`. -/

structure StreamState where
  pend : List Nat
  buf : List Char
  res : List Char
  lines : List (List Char)
  texts : List (List Char)
  fin : Bool
  deriving DecidableEq

def initStream : StreamState := ⟨[], [], [], [], [], false⟩

/-- Handle one complete raw line (loop body, lines 292-316): `trimEnd`,
skip non-`data:` lines, finalize on the `[DONE]` sentinel, skip lines whose
payload fails `JSON.parse`, append a non-empty delta and call `onText`. -/
def hLine (st : StreamState) (l : List Char) : StreamState :=
  let st1 := {st with lines := st.lines ++ [l]}
  let line := jsTrimEnd l
  if List.isPrefixOf "data:".data line then
    let dataStr := jsTrimL (line.drop 5)
    if dataStr = "[DONE]".data then
      {st1 with fin := true, texts := st1.texts ++ [st1.res]}
    else
      match jsonParseL dataStr with
      | none => st1
      | some data =>
        let delta := getStreamDeltaContent data
        if delta = "" then st1
        else {st1 with res := st1.res ++ delta.data, texts := st1.texts ++ [st1.res ++ delta.data]}
  else st1

/-- Split a buffer at every newline: complete lines and the trailing rest. -/
def splitNl : List Char → List (List Char) × List Char
  | [] => ([], [])
  | c :: cs =>
    if c = '\n' then ([] :: (splitNl cs).1, (splitNl cs).2)
    else
      match splitNl cs with
      | ([], t) => ([], c :: t)
      | (l :: ls, t) => ((c :: l) :: ls, t)

/-- Consume extracted lines in order, stopping at the `[DONE]` early return. -/
def runLines : StreamState → List (List Char) → StreamState
  | st, [] => st
  | st, l :: ls =>
    if st.fin then st
    else
      let st2 := hLine st l
      if st2.fin then {st2 with pend := [], buf := []} else runLines st2 ls

/-- One iteration of the outer read loop (lines 284-317): decode the chunk,
append to the buffer, extract and handle every complete line. -/
def feedChunk (st : StreamState) (chunk : List Nat) : StreamState :=
  if st.fin then st
  else
    let dp := decPush st.pend chunk
    let sp := splitNl (st.buf ++ dp.2)
    runLines {st with pend := dp.1, buf := sp.2} sp.1

/-- Feed a whole sequence of chunks, from the initial state. -/
def feedAll (chunks : List (List Nat)) : StreamState := chunks.foldl feedChunk initStream

/-- The body-stream path of `_fetchCompletionStreaming`: final returned text
and the trace of `onText` arguments.  On `[DONE]` the accumulated result is
returned directly; at stream end without a sentinel, `onText` fires once
more with the result or, if that is empty, the trimmed leftover buffer
(lines 297-300, 319-320). -/
def streamBody (chunks : List (List Nat)) : String × List String :=
  let st := feedAll chunks
  if st.fin then (String.mk st.res, st.texts.map String.mk)
  else
    let finalText := if 0 < st.res.length then st.res else jsTrimL st.buf
    (String.mk finalText, ((st.texts ++ [finalText]).map String.mk))

/-! ## The HTTP call (`_fetchCompletionStreaming`, lines 240-329)

The network is abstracted as an outcome: either the `fetch` (or a
subsequent read) rejects with an error value, or a response arrives with a
status and a body that may or may not expose a stream.  The 20-second
`setTimeout(() => controller.abort(), 20000)` is real time and enters the
model only through its constant and through the `AbortError` outcome. -/

inductive JsErr where
  | domException (name msg : String)
  | jsError (msg : String)
  deriving DecidableEq

/-- `e instanceof DOMException && e.name === 'AbortError'` (line 322). -/
def isAbortError : JsErr → Bool
  | .domException name _ => name = "AbortError"
  | _ => false

/-- The timeout armed on the `AbortController` (line 257). -/
def aiRequestTimeoutMs : Nat := 20000

/-- The catch block (lines 321-325): an abort becomes the distinct timeout
error, every other error is rethrown unchanged. -/
def mapStreamError (e : JsErr) : JsErr :=
  if isAbortError e then .jsError "AI request timed out" else e

inductive BodyKind where
  | noStream (text : String)
  | stream (chunks : List (List Nat))

inductive NetOutcome where
  | failure (e : JsErr)
  | response (status : Nat) (body : BodyKind)

/-- `response.text()`: the whole body as text. -/
def bodyTextOf : BodyKind → String
  | .noStream t => t
  | .stream chunks => String.mk (decPush [] chunks.flatten).2

/-- The non-2xx error message (line 269), body excerpt capped at 500. -/
def httpErrMsg (status : Nat) (text : String) : String :=
  "AI request failed (" ++ toString status ++ "): " ++ String.mk (text.data.take 500)

/-- `_fetchCompletionStreaming` after the request is issued: non-2xx check,
no-body single-shot fallback, or the streaming loop; the catch maps aborts
to the timeout error.  Result: final text and `onText` trace. -/
def fetchCompletionStreaming (net : NetOutcome) : Except JsErr (String × List String) :=
  let r : Except JsErr (String × List String) :=
    match net with
    | .failure e => .error e
    | .response status body =>
      if 200 ≤ status ∧ status ≤ 299 then
        match body with
        | .noStream t => .ok (t, [t])
        | .stream chunks => .ok (streamBody chunks)
      else .error (.jsError (httpErrMsg status (bodyTextOf body)))
  match r with
  | .error e => .error (mapStreamError e)
  | .ok v => .ok v

/-! ## `_setContentRendered` (display-ai.js lines 417-514)

The DOM tree appended under `#ai-explanation-content` is abstracted as a
list of nodes in append order; each rendering starts from an emptied
container (`textContent = ''`, line 419), so the function is a pure map
from the parsed value to the new content — rendering fully replaces prior
content by construction. -/

/-- One rendered example: its text line and/or explain line. -/
structure ExampleItem where
  text : Option String
  explain : Option String
  deriving DecidableEq

/-- A child of the content container, in append order. -/
inductive RNode where
  | header (title : String) (badge : Option String)
  | section (title : String) (body : String)
  | examplesSec (items : List ExampleItem)
  deriving DecidableEq

/-- What the content element shows: plain text or rendered nodes. -/
inductive ContentView where
  | text (s : String)
  | doc (nodes : List RNode)
  deriving DecidableEq

/-- `typeof data.k === 'string' ? data.k : ''` — defensive string field. -/
def strField (d : Json) (k : String) : String :=
  match jGet d k with
  | some (.str s) => s
  | _ => ""

/-- `Array.isArray(data.k) ? data.k : []` — defensive array field. -/
def arrField (d : Json) (k : String) : List Json :=
  match jGet d k with
  | some (.arr xs) => xs
  | _ => []

/-- One example entry (lines 485-510): non-objects are skipped, as are
entries whose `text` and `explain` are both empty/mistyped; each line is
present only when its field is a non-empty string. -/
def exampleItemOf (e : Json) : Option ExampleItem :=
  if jsIsObject e then
    let text := strField e "text"
    let explain := strField e "explain"
    if text = "" ∧ explain = "" then none
    else some ⟨if text = "" then none else some text,
               if explain = "" then none else some explain⟩
  else none

/-- `addSection` (lines 452-468): no node at all when the body text is
empty or whitespace-only. -/
def sectionNodes (title body : String) : List RNode :=
  if jsTrimL body.data = [] then [] else [RNode.section title body]

/-- The object case of `_setContentRendered` (lines 426-513). -/
def renderObj (data : Json) : List RNode :=
  let title := strField data "title"
  let word := strField data "word"
  let meaning := strField data "meaning"
  let meaningInContext := strField data "meaning_in_context"
  let usage := strField data "usage"
  let examples := arrField data "examples"
  RNode.header
      (if title = "" then (if word = "" then "AI" else word) else title)
      (if word = "" then none else some word)
    :: (sectionNodes "Meaning" meaning
        ++ sectionNodes "In context" meaningInContext
        ++ sectionNodes "Usage" usage
        ++ (if examples.isEmpty then []
            else [RNode.examplesSec (examples.filterMap exampleItemOf)]))

/-- `String(value)` for the non-object early return (lines 421-424).  The
number case is approximated by the source lexeme; it is unreachable from
`_tryParseJson` output, whose top level is always an object. -/
def jsStringOf : Json → String
  | .null => "null"
  | .bool true => "true"
  | .bool false => "false"
  | .str s => s
  | .num lexeme => lexeme
  | .arr _ => ""
  | .obj _ => ""

/-- `_setContentRendered`: non-objects (minus arrays) print as text,
otherwise the structured node list is built. -/
def setContentRendered (value : Json) : ContentView :=
  if jsIsObject value then .doc (renderObj value) else .text (jsStringOf value)

/-! ## The display session (`DisplayAi` instance state and handlers)

The externally visible state of one display instance: the request token
counter, the visibility flags, the status line and the content pane, the
settings cache and the pending input.  Each synchronous block of the
source becomes one Lean function; `captured` is the `requestId` value the
surrounding `async` function saved before its most recent `await`. -/

structure AiSettings where
  mode : String
  apiUrl : String
  apiKey : String
  model : String
  prompt : String
  deriving DecidableEq

structure UiState where
  requestId : Nat
  visible : Bool
  buttonVisible : Bool
  status : String
  content : ContentView
  settings : Option AiSettings
  pendingInput : Option (String × String)
  deriving DecidableEq

/-- `_onContentClear` (lines 70-77). -/
def onContentClear (st : UiState) : UiState :=
  {st with requestId := st.requestId + 1, pendingInput := none, visible := false,
           buttonVisible := false, status := "", content := .text ""}

/-- Synchronous prefix of `_onContentUpdateStart` (lines 82-91): bump the
token, drop pending input, bail out for non-shift lookups; otherwise
capture the token (returned) and suspend on the settings fetch. -/
def contentUpdateEntry (shift : Bool) (st : UiState) : UiState × Option Nat :=
  let st1 := {st with requestId := st.requestId + 1, pendingInput := none}
  if shift then (st1, some st1.requestId) else ({st1 with visible := false}, none)

/-- Synchronous entry of `_requestExplain` (lines 135-141): bump the token,
capture it (second component), show the pane and the thinking status. -/
def requestExplainEntry (st : UiState) : UiState × Nat :=
  ({st with requestId := st.requestId + 1, visible := true,
            status := "AI is thinking…", content := .text ""}, st.requestId + 1)

/-- `_requestExplain` from the token check after settings are available
(lines 145-150) up to the suspension on the fetch: a stale token returns
silently; an empty (trimmed) URL throws, and the catch (lines 176-181) —
whose own token check passes, nothing having run in between — shows the
failure; otherwise the prompt is built and the fetch opened, with no
externally visible mutation yet.  Runs synchronously after the entry when
the settings cache is populated (`this._settings ?? await …`), or as the
resumption of the settings `await` otherwise. -/
def explainAfterSettings (captured : Nat) (settings : AiSettings) (st : UiState) : UiState :=
  if captured ≠ st.requestId then st
  else if jsTrim settings.apiUrl = "" then
    {st with status := "AI request failed.", content := .text "AI API URL not configured"}
  else st

/-- Resumption of `_onContentUpdateStart` after a successful settings fetch
(lines 94-121): stale tokens return before any mutation; otherwise the
settings cache is written, the input recorded, the pane shown, and either
the manual-mode prompt displayed or `_requestExplain` invoked (whose
synchronous prefix, the settings cache now being populated, runs through
the URL check). -/
def updateSettingsOk (captured : Nat) (settings : AiSettings) (query : Option String)
    (context : String) (st : UiState) : UiState :=
  if captured ≠ st.requestId then st
  else
    let word := query.getD ""
    let st1 := {st with settings := some settings, pendingInput := some (word, context),
                        visible := true}
    if settings.mode = "manual" then
      {st1 with buttonVisible := true, status := "Click AI to explain.", content := .text ""}
    else
      let st2 := {st1 with buttonVisible := false}
      explainAfterSettings (requestExplainEntry st2).2 settings (requestExplainEntry st2).1

/-- Resumption of `_onContentUpdateStart` when the settings fetch fails
(catch block, lines 97-105).  The source performs these mutations without
consulting the captured token: `captured` is what the continuation holds
but the body never compares it. -/
def updateSettingsErr (captured : Nat) (st : UiState) : UiState :=
  {st with settings := none, visible := true, buttonVisible := false,
           status := "AI settings unavailable.", content := .text ""}

/-- `_onButtonClick` (lines 125-129) including the synchronous prefix of
the `_requestExplain` it fires; with an empty settings cache that call
suspends on the settings fetch right after its entry. -/
def onButtonClick (shift : Bool) (st : UiState) : UiState :=
  if shift then
    match st.pendingInput with
    | none => st
    | some _ =>
      match st.settings with
      | some settings =>
        explainAfterSettings (requestExplainEntry st).2 settings (requestExplainEntry st).1
      | none => (requestExplainEntry st).1
  else st

/-- The `onText` partial callback (lines 156-164): stale tokens return
before any mutation; otherwise the raw text is shown and, when it parses,
the structured rendering replaces it and the status is cleared. -/
def explainOnText (captured : Nat) (partialText : String) (st : UiState) : UiState :=
  if captured ≠ st.requestId then st
  else
    let st1 := {st with content := .text partialText}
    match tryParseJson partialText with
    | none => st1
    | some parsed => {st1 with status := "", content := setContentRendered parsed}

/-- Resumption of `_requestExplain` after the fetch resolves (lines
167-175): stale tokens return before any mutation. -/
def explainFinal (captured : Nat) (resultText : String) (st : UiState) : UiState :=
  if captured ≠ st.requestId then st
  else
    match tryParseJson resultText with
    | some parsed => {st with status := "", content := setContentRendered parsed}
    | none => {st with status := "", content := .text resultText}

/-- The catch block of `_requestExplain` (lines 176-181): stale tokens
return before any mutation. -/
def explainCatch (captured : Nat) (errMsg : String) (st : UiState) : UiState :=
  if captured ≠ st.requestId then st
  else {st with status := "AI request failed.", content := .text errMsg}

/-- One atomic (synchronous) transition of the display session: any handler
entry or any continuation, the latter with an arbitrary captured token —
an over-approximation of the reachable schedules that is sound for the
safety properties proved below. -/
inductive UiStep : UiState → UiState → Prop where
  | clear (st : UiState) : UiStep st (onContentClear st)
  | update (shift : Bool) (st : UiState) : UiStep st (contentUpdateEntry shift st).1
  | settingsOk (captured : Nat) (settings : AiSettings) (query : Option String)
      (context : String) (st : UiState) :
      UiStep st (updateSettingsOk captured settings query context st)
  | settingsErr (captured : Nat) (st : UiState) : UiStep st (updateSettingsErr captured st)
  | click (shift : Bool) (st : UiState) : UiStep st (onButtonClick shift st)
  | afterSettings (captured : Nat) (settings : AiSettings) (st : UiState) :
      UiStep st (explainAfterSettings captured settings st)
  | onText (captured : Nat) (partialText : String) (st : UiState) :
      UiStep st (explainOnText captured partialText st)
  | streamDone (captured : Nat) (resultText : String) (st : UiState) :
      UiStep st (explainFinal captured resultText st)
  | failed (captured : Nat) (errMsg : String) (st : UiState) :
      UiStep st (explainCatch captured errMsg st)

/-- The display session can take any finite number of atomic steps. -/
def UiReach : UiState → UiState → Prop := Relation.ReflTransGen UiStep

/-! ## Concrete test data used by the witnesses below -/

/-- Bytes of an ASCII wire string. -/
def strBytes (s : String) : List Nat := s.data.map Char.toNat

/-- The stream of testable property 4: one delta `"x"`, then the sentinel. -/
def doneStreamChunk : List Nat :=
  strBytes "data: \x7b\"choices\":[\x7b\"delta\":\x7b\"content\":\"x\"\x7d\x7d]\x7d\n\ndata: [DONE]\n\n"

/-- The stream of testable property 5: a malformed line between two deltas. -/
def sandwichChunk : List Nat :=
  strBytes ("data: \x7b\"choices\":[\x7b\"delta\":\x7b\"content\":\"a\"\x7d\x7d]\x7d\ndata: not-json\n" ++
            "data: \x7b\"choices\":[\x7b\"delta\":\x7b\"content\":\"b\"\x7d\x7d]\x7d\n")

/-- A JSON response body whose `choices[0].message.content` is `"x"`. -/
def c6Body : String := "\x7b\"choices\":[\x7b\"message\":\x7b\"content\":\"x\"\x7d\x7d]\x7d"

/-- What the spec's §6 prescribes as the final text of the non-streaming
fallback (for comparison with `fetchCompletionStreaming`): the text at
`choices[0].message.content` of the parsed full body. -/
def specNonStreamingFinalText (bodyText : String) : Option String :=
  match jsonParse bodyText with
  | some data =>
    match jGet data "choices" with
    | some (.arr (choice0 :: _)) =>
      match jGet choice0 "message" with
      | some m =>
        match jGet m "content" with
        | some (.str s) => some s
        | _ => none
      | _ => none
    | _ => none
  | none => none

/-- A session state with two lookups already counted, used as the base
point of several witnesses. -/
def sampleState : UiState :=
  ⟨2, false, true, "s0", .text "c0", some ⟨"auto", "u", "k", "m", "p"⟩, none⟩

/-- Re-join split lines, restoring the newline each complete line lost. -/
def joinNl (ls : List (List Char)) : List Char :=
  (ls.map (fun l => l ++ ['\n'])).flatten

/-! # Theorems -/

theorem jsonWs_imp_jsWs {c : Char} (h : jsonWs c = true) : jsWs c = true := by
  simp only [jsonWs, Bool.or_eq_true, decide_eq_true_eq] at h
  simp only [jsWs, Bool.or_eq_true, decide_eq_true_eq, Bool.and_eq_true]
  tauto

/-! ## Stream machine basics -/

theorem decPush_append (a : List Nat) : ∀ (p : List Nat) (b : List Nat),
    decPush p (a ++ b) =
      ((decPush (decPush p a).1 b).1, (decPush p a).2 ++ (decPush (decPush p a).1 b).2) := by
  induction a with
  | nil => intro p b; simp [decPush]
  | cons x xs ih =>
    intro p b
    simp only [List.cons_append, decPush, List.append_eq]
    rw [ih]
    simp [List.append_assoc]

theorem splitNl_cons_nl (cs : List Char) :
    splitNl ('\n' :: cs) = ([] :: (splitNl cs).1, (splitNl cs).2) := by
  simp [splitNl]

theorem splitNl_cons {c : Char} (cs : List Char) (h : ¬c = '\n') :
    splitNl (c :: cs) =
      (match splitNl cs with
       | ([], t) => ([], c :: t)
       | (l :: ls, t) => ((c :: l) :: ls, t)) := by
  simp [splitNl, h]

theorem splitNl_join : ∀ b : List Char, joinNl (splitNl b).1 ++ (splitNl b).2 = b := by
  intro b
  induction b with
  | nil => rfl
  | cons c cs ih =>
    by_cases hc : c = '\n'
    · subst hc
      rw [splitNl_cons_nl]
      simp only [joinNl] at ih ⊢
      simp only [List.map_cons, List.flatten_cons, List.nil_append, List.cons_append,
        List.append_assoc]
      rw [ih]
    · rw [splitNl_cons cs hc]
      cases hsp : splitNl cs with
      | mk L T =>
        rw [hsp] at ih
        cases L with
        | nil =>
          simp only [joinNl, List.map_nil, List.flatten_nil, List.nil_append] at ih ⊢
          rw [ih]
        | cons l ls =>
          simp only [joinNl] at ih ⊢
          simp only [List.map_cons, List.flatten_cons, List.cons_append,
            List.append_assoc] at ih ⊢
          rw [ih]

theorem splitNl_append : ∀ (a b : List Char),
    splitNl (a ++ b) =
      ((splitNl a).1 ++ (splitNl ((splitNl a).2 ++ b)).1, (splitNl ((splitNl a).2 ++ b)).2) := by
  intro a
  induction a with
  | nil => intro b; simp [splitNl]
  | cons c cs ih =>
    intro b
    by_cases hc : c = '\n'
    · subst hc
      rw [List.cons_append, splitNl_cons_nl, splitNl_cons_nl]
      rw [ih]
      simp
    · rw [List.cons_append, splitNl_cons (cs ++ b) hc, splitNl_cons cs hc]
      rw [ih]
      cases hsp : splitNl cs with
      | mk L T =>
        cases L with
        | nil =>
          dsimp only [List.nil_append]
          cases hsp2 : splitNl (T ++ b) with
          | mk L2 T2 =>
            cases L2 with
            | nil =>
              dsimp only
              rw [show ((c :: T) ++ b) = c :: (T ++ b) from rfl,
                splitNl_cons (T ++ b) hc, hsp2]
            | cons l2 ls2 =>
              dsimp only
              rw [show ((c :: T) ++ b) = c :: (T ++ b) from rfl,
                splitNl_cons (T ++ b) hc, hsp2]
        | cons l ls =>
          dsimp only
          simp

theorem feedChunk_fin {st : StreamState} (h : st.fin = true) (c : List Nat) :
    feedChunk st c = st := by
  simp [feedChunk, h]

theorem foldl_feedChunk_fin {st : StreamState} (h : st.fin = true) :
    ∀ rest : List (List Nat), List.foldl feedChunk st rest = st := by
  intro rest
  induction rest with
  | nil => rfl
  | cons c cs ih => rw [List.foldl_cons, feedChunk_fin h]; exact ih

theorem hLine_frame (p0 : List Nat) (b0 : List Char) (p : List Nat) (x : List Char)
    (res : List Char) (lines texts : List (List Char)) (fin : Bool) (l : List Char) :
    hLine ⟨p, x, res, lines, texts, fin⟩ l =
      {hLine ⟨p0, b0, res, lines, texts, fin⟩ l with buf := x, pend := p} := by
  unfold hLine
  dsimp only
  split
  · split
    · rfl
    · split
      · rfl
      · split <;> rfl
  · rfl

theorem hLine_buf (st : StreamState) (l : List Char) : (hLine st l).buf = st.buf := by
  unfold hLine
  dsimp only
  split
  · split
    · rfl
    · split
      · rfl
      · split <;> rfl
  · rfl

theorem hLine_pend (st : StreamState) (l : List Char) : (hLine st l).pend = st.pend := by
  unfold hLine
  dsimp only
  split
  · split
    · rfl
    · split
      · rfl
      · split <;> rfl
  · rfl

theorem hLine_lines (st : StreamState) (l : List Char) :
    (hLine st l).lines = st.lines ++ [l] := by
  unfold hLine
  dsimp only
  split
  · split
    · rfl
    · split
      · rfl
      · split <;> rfl
  · rfl

theorem runLines_fin {st : StreamState} (h : st.fin = true) :
    ∀ ls : List (List Char), runLines st ls = st := by
  intro ls
  cases ls with
  | nil => rfl
  | cons l ls => simp [runLines, h]

theorem runLines_append (ls : List (List Char)) : ∀ (st : StreamState) (ms : List (List Char)),
    runLines st (ls ++ ms) = runLines (runLines st ls) ms := by
  induction ls with
  | nil => intro st ms; rfl
  | cons l ls ih =>
    intro st ms
    by_cases hf : st.fin
    · rw [runLines_fin hf, runLines_fin hf, runLines_fin hf]
    · rw [List.cons_append]
      simp only [runLines, if_neg hf]
      by_cases h2 : (hLine st l).fin
      · rw [if_pos h2, if_pos h2, runLines_fin (by exact h2)]
      · rw [if_neg h2, if_neg h2]
        exact ih (hLine st l) ms

theorem runLines_frame (ls : List (List Char)) :
    ∀ (st : StreamState) (x : List Char) (p : List Nat), st.fin = false →
      runLines {st with buf := x, pend := p} ls =
        if (runLines st ls).fin = true then runLines st ls
        else {runLines st ls with buf := x, pend := p} := by
  induction ls with
  | nil =>
    intro st x p hf
    simp [runLines, hf]
  | cons l ls ih =>
    intro st x p hf
    obtain ⟨p0, b0, res0, lines0, texts0, fin0⟩ := st
    subst hf
    simp only [runLines]
    simp only [Bool.false_eq_true, if_false]
    rw [hLine_frame p0 b0 p x]
    by_cases h2 : (hLine ⟨p0, b0, res0, lines0, texts0, false⟩ l).fin = true
    · rw [if_pos (by dsimp only; exact h2), if_pos h2]
      dsimp only
      rw [h2]
      simp
    · rw [if_neg (by dsimp only; exact h2), if_neg h2]
      have IH := ih (hLine ⟨p0, b0, res0, lines0, texts0, false⟩ l) x p
        (by simpa using h2)
      exact IH

theorem runLines_pres (ls : List (List Char)) :
    ∀ st : StreamState, st.fin = false → (runLines st ls).fin = false →
      (runLines st ls).buf = st.buf ∧ (runLines st ls).pend = st.pend := by
  induction ls with
  | nil => intro st hf h2; exact ⟨rfl, rfl⟩
  | cons l ls ih =>
    intro st hf h2
    rw [runLines] at h2 ⊢
    rw [if_neg (by rw [hf]; exact Bool.false_ne_true)] at h2 ⊢
    by_cases hl : (hLine st l).fin = true
    · rw [if_pos hl] at h2
      simp [hl] at h2
    · rw [if_neg hl] at h2 ⊢
      obtain ⟨hb, hp⟩ := ih (hLine st l) (by simpa using hl) h2
      rw [hb, hp, hLine_buf, hLine_pend]
      exact ⟨rfl, rfl⟩

theorem runLines_lines (ls : List (List Char)) :
    ∀ st : StreamState, st.fin = false → (runLines st ls).fin = false →
      (runLines st ls).lines = st.lines ++ ls := by
  induction ls with
  | nil => intro st hf h2; simp [runLines]
  | cons l ls ih =>
    intro st hf h2
    rw [runLines] at h2 ⊢
    rw [if_neg (by rw [hf]; exact Bool.false_ne_true)] at h2 ⊢
    by_cases hl : (hLine st l).fin = true
    · rw [if_pos hl] at h2
      simp [hl] at h2
    · rw [if_neg hl] at h2 ⊢
      rw [ih (hLine st l) (by simpa using hl) h2, hLine_lines]
      simp

theorem runLines_frame2 (ls : List (List Char)) (p0 : List Nat) (b0 : List Char)
    (x : List Char) (p : List Nat) (res : List Char) (lines texts : List (List Char)) :
    runLines ⟨p, x, res, lines, texts, false⟩ ls =
      if (runLines ⟨p0, b0, res, lines, texts, false⟩ ls).fin = true
      then runLines ⟨p0, b0, res, lines, texts, false⟩ ls
      else {runLines ⟨p0, b0, res, lines, texts, false⟩ ls with buf := x, pend := p} :=
  runLines_frame ls ⟨p0, b0, res, lines, texts, false⟩ x p rfl

theorem feedChunk_not_fin {st : StreamState} (hf : st.fin = false) (c : List Nat) :
    feedChunk st c =
      runLines {st with pend := (decPush st.pend c).1,
                        buf := (splitNl (st.buf ++ (decPush st.pend c).2)).2}
        (splitNl (st.buf ++ (decPush st.pend c).2)).1 := by
  rw [feedChunk, if_neg (by rw [hf]; exact Bool.false_ne_true)]

theorem feedChunk_mk (P : List Nat) (B R : List Char) (L T : List (List Char)) (c : List Nat) :
    feedChunk ⟨P, B, R, L, T, false⟩ c =
      runLines ⟨(decPush P c).1, (splitNl (B ++ (decPush P c).2)).2, R, L, T, false⟩
        (splitNl (B ++ (decPush P c).2)).1 :=
  feedChunk_not_fin rfl c

set_option maxHeartbeats 2000000 in
theorem feedChunk_append (st : StreamState) (a b : List Nat) :
    feedChunk (feedChunk st a) b = feedChunk st (a ++ b) := by
  by_cases hf : st.fin
  · rw [feedChunk_fin hf, feedChunk_fin hf, feedChunk_fin hf]
  · have hf' : st.fin = false := by simpa using hf
    obtain ⟨P, B, R, L, T, F⟩ := st
    subst hf'
    rw [feedChunk_mk, feedChunk_mk]
    rw [decPush_append]
    dsimp only
    rw [(List.append_assoc B (decPush P a).2 (decPush (decPush P a).1 b).2).symm]
    rw [splitNl_append (B ++ (decPush P a).2) (decPush (decPush P a).1 b).2]
    dsimp only
    rw [runLines_append]
    rw [runLines_frame2 (splitNl (B ++ (decPush P a).2)).1 (decPush P a).1
      (splitNl (B ++ (decPush P a).2)).2
      (splitNl ((splitNl (B ++ (decPush P a).2)).2 ++ (decPush (decPush P a).1 b).2)).2
      (decPush (decPush P a).1 b).1 R L T]
    by_cases h1 : (runLines ⟨(decPush P a).1, (splitNl (B ++ (decPush P a).2)).2, R, L, T, false⟩
        (splitNl (B ++ (decPush P a).2)).1).fin = true
    · rw [if_pos h1]
      rw [runLines_fin h1]
      rw [feedChunk_fin h1]
    · have h1' := Bool.eq_false_iff.mpr h1
      rw [if_neg h1]
      rw [feedChunk_not_fin h1' b]
      obtain ⟨hb, hp⟩ := runLines_pres _ _ rfl h1'
      rw [hb, hp]

/-! ## C2 -/

theorem foldl_feedChunk_flatten (cs : List (List Nat)) : ∀ (c : List Nat) (st : StreamState),
    List.foldl feedChunk st (c :: cs) = feedChunk st (c ++ cs.flatten) := by
  induction cs with
  | nil => intro c st; simp [List.foldl]
  | cons d ds ih =>
    intro c st
    rw [List.foldl_cons]
    rw [show List.foldl feedChunk (feedChunk st c) (d :: ds) =
        feedChunk (feedChunk st c) (d ++ ds.flatten) from ih d (feedChunk st c)]
    rw [feedChunk_append]
    rw [List.flatten_cons]

theorem feedAll_eq_single (chunks : List (List Nat)) :
    feedAll chunks = feedAll [chunks.flatten] := by
  cases chunks with
  | nil => rfl
  | cons c cs =>
    show List.foldl feedChunk initStream (c :: cs) = feedAll [(c :: cs).flatten]
    rw [foldl_feedChunk_flatten cs c initStream]
    rfl

theorem feedAll_conservation (chunks : List (List Nat)) (h : (feedAll chunks).fin = false) :
    joinNl (feedAll chunks).lines ++ (feedAll chunks).buf = (decPush [] chunks.flatten).2 := by
  rw [feedAll_eq_single] at h ⊢
  have e1 : feedAll [chunks.flatten] =
      feedChunk ⟨[], [], [], [], [], false⟩ chunks.flatten := rfl
  rw [e1, feedChunk_mk] at h ⊢
  obtain ⟨hb, -⟩ := runLines_pres _ _ rfl h
  rw [runLines_lines _ _ rfl h, hb]
  dsimp only
  rw [List.nil_append]
  have := splitNl_join ([] ++ (decPush [] chunks.flatten).2)
  rw [List.nil_append] at this
  exact this

/-- C2: feeding any chunk split of an SSE body to the streaming read loop
yields exactly the same reader state as feeding the whole byte sequence as
one chunk — same accumulated text, same sequence of complete lines, same
`onText` trace, same leftover buffer and decoder state — and, as long as
the `[DONE]` early return has not fired, no byte of a partial trailing
line is dropped: the consumed complete lines, re-joined with their
newlines and followed by the retained buffer, reproduce the entire decoded
input. -/
theorem c2_split_invariance :
    ∀ chunks : List (List Nat),
      feedAll chunks = feedAll [chunks.flatten] ∧
      ((feedAll chunks).fin = false →
        joinNl (feedAll chunks).lines ++ (feedAll chunks).buf =
          (decPush [] chunks.flatten).2) :=
  fun chunks => ⟨feedAll_eq_single chunks, feedAll_conservation chunks⟩

theorem c2_witness :
    feedAll [[97, 98], [10, 99]] = feedAll [[97, 98, 10, 99]] ∧
    joinNl (feedAll [[97, 98], [10, 99]]).lines ++ (feedAll [[97, 98], [10, 99]]).buf =
      (decPush [] [97, 98, 10, 99]).2 :=
  ⟨(c2_split_invariance [[97, 98], [10, 99]]).1,
   (c2_split_invariance [[97, 98], [10, 99]]).2 (by decide)⟩

/-! ## C4 -/

/-- C4: consuming a complete line whose payload is the `[DONE]` sentinel
finalizes immediately: the stream of testable property 4 — one delta `"x"`
then the sentinel — yields final text `"x"` no matter what further chunks
the connection would still deliver (so no read-loop end-of-stream and no
subsequent line is ever needed), and a finished reader state absorbs every
subsequent chunk unchanged. -/
theorem c4_done_sentinel_short_circuits :
    (∀ rest : List (List Nat), (streamBody (doneStreamChunk :: rest)).1 = "x") ∧
    (∀ (st : StreamState) (c : List Nat), feedChunk {st with fin := true} c = {st with fin := true}) := by
  constructor
  · intro rest
    have hfin : (feedChunk initStream doneStreamChunk).fin = true := by decide
    have hres : (feedChunk initStream doneStreamChunk).res = "x".data := by decide
    have hall : feedAll (doneStreamChunk :: rest) = feedChunk initStream doneStreamChunk := by
      rw [feedAll, List.foldl_cons]
      exact foldl_feedChunk_fin hfin rest
    simp [streamBody, hall, hfin, hres]
  · intro st c
    exact feedChunk_fin rfl c

/-! ## C5 -/

/-- C5: a `data:` line whose payload fails `JSON.parse` is skipped — the
state is unchanged except for the line trace: no abort, no text change, no
`onText` call — and the concrete sandwich stream of testable property 5
still yields the concatenation `"ab"` of the two valid deltas. -/
theorem c5_malformed_line_skipped :
    (∀ (st : StreamState) (l : List Char),
      List.isPrefixOf "data:".data (jsTrimEnd l) = true →
      jsTrimL ((jsTrimEnd l).drop 5) ≠ "[DONE]".data →
      jsonParseL (jsTrimL ((jsTrimEnd l).drop 5)) = none →
      hLine st l = {st with lines := st.lines ++ [l]}) ∧
    (streamBody [sandwichChunk]).1 = "ab" := by
  constructor
  · intro st l h1 h2 h3
    simp [hLine, h1, h2, h3]
  · decide

theorem c5_witness :
    hLine initStream "data: not-json".data =
      {initStream with lines := ["data: not-json".data]} :=
  c5_malformed_line_skipped.1 initStream "data: not-json".data
    (by decide) (by decide) rfl

/-! ## C10 -/

/-- C10: consuming the `[DONE]` sentinel invokes `onText` exactly one final
time, with precisely the accumulated text (even when empty, and even when
it repeats the previous call), before that text is returned; once the
reader is finished, the function's return step appends no further `onText`
call. -/
theorem c10_done_invokes_ontext_once :
    (∀ (st : StreamState) (l : List Char),
      List.isPrefixOf "data:".data (jsTrimEnd l) = true →
      jsTrimL ((jsTrimEnd l).drop 5) = "[DONE]".data →
      hLine st l = {st with lines := st.lines ++ [l],
                            texts := st.texts ++ [st.res], fin := true}) ∧
    (∀ chunks : List (List Nat), (feedAll chunks).fin = true →
      streamBody chunks = (String.mk (feedAll chunks).res,
                           (feedAll chunks).texts.map String.mk)) := by
  constructor
  · intro st l h1 h2
    simp [hLine, h1, h2]
  · intro chunks h
    simp [streamBody, h]

theorem c10_witness :
    hLine ⟨[], [], "x".data, [], ["x".data], false⟩ "data: [DONE]".data =
      ⟨[], [], "x".data, ["data: [DONE]".data], ["x".data, "x".data], true⟩ ∧
    streamBody [doneStreamChunk] = ("x", ["x", "x"]) :=
  ⟨c10_done_invokes_ontext_once.1 ⟨[], [], "x".data, [], ["x".data], false⟩
      "data: [DONE]".data (by decide) (by decide),
   (c10_done_invokes_ontext_once.2 [doneStreamChunk] (by decide)).trans (by decide)⟩

/-! ## C6 -/

/-- C6 counterexample: for a 2xx response without a body stream, the source
returns the full body text verbatim (lines 272-276); it does not extract
`choices[0].message.content` as the claim states — on a body whose
`choices[0].message.content` is `"x"` the call returns the whole body,
which differs from `"x"`. -/
theorem c6_counterexample_nostream_returns_full_body :
    fetchCompletionStreaming (.response 200 (.noStream c6Body)) = .ok (c6Body, [c6Body]) ∧
    specNonStreamingFinalText c6Body = some "x" ∧
    c6Body ≠ "x" :=
  ⟨rfl, rfl, by decide⟩

/-- C6 amended: for every successful (2xx) response that has no body
stream, the final text returned by the client equals the full response
body text, and `onText` is invoked exactly once with that text. -/
theorem c6_amended_nostream_returns_body_text :
    ∀ (status : Nat) (t : String), 200 ≤ status → status ≤ 299 →
    fetchCompletionStreaming (.response status (.noStream t)) = .ok (t, [t]) := by
  intro status t h1 h2
  simp [fetchCompletionStreaming, h1, h2]

theorem c6_amended_witness :
    fetchCompletionStreaming (.response 204 (.noStream "hi")) = .ok ("hi", ["hi"]) :=
  c6_amended_nostream_returns_body_text 204 "hi" (by decide) (by decide)

/-! ## C7 -/

/-- C7: the cancellation signal is armed at 20000 ms; an abort failure is
mapped to the distinct `Error('AI request timed out')`; every non-abort
failure propagates unchanged (so the timeout error is never manufactured
from it); a non-2xx response fails with the HTTP error, whose message is
never the timeout message. -/
theorem c7_timeout_mapping :
    aiRequestTimeoutMs = 20000 ∧
    (∀ e : JsErr, isAbortError e = true →
      fetchCompletionStreaming (.failure e) = .error (.jsError "AI request timed out")) ∧
    (∀ e : JsErr, isAbortError e = false →
      fetchCompletionStreaming (.failure e) = .error e) ∧
    (∀ (status : Nat) (body : BodyKind), ¬(200 ≤ status ∧ status ≤ 299) →
      fetchCompletionStreaming (.response status body) =
        .error (.jsError (httpErrMsg status (bodyTextOf body)))) ∧
    (∀ (status : Nat) (excerpt : String), httpErrMsg status excerpt ≠ "AI request timed out") := by
  refine ⟨rfl, ?_, ?_, ?_, ?_⟩
  · intro e h
    simp [fetchCompletionStreaming, mapStreamError, h]
  · intro e h
    simp [fetchCompletionStreaming, mapStreamError, h]
  · intro status body h
    simp [fetchCompletionStreaming, h, mapStreamError, isAbortError]
  · intro status excerpt hEq
    have hl := congrArg String.length hEq
    rw [httpErrMsg, String.length_append, String.length_append, String.length_append] at hl
    have h1 : ("AI request failed (" : String).length = 19 := by decide
    have h2 : ("): " : String).length = 3 := by decide
    have h3 : ("AI request timed out" : String).length = 20 := by decide
    omega

theorem c7_witness :
    fetchCompletionStreaming (.failure (.domException "AbortError" "signal is aborted")) =
      .error (.jsError "AI request timed out") ∧
    fetchCompletionStreaming (.failure (.jsError "network down")) =
      .error (.jsError "network down") ∧
    fetchCompletionStreaming (.response 404 (.noStream "nope")) =
      .error (.jsError (httpErrMsg 404 "nope")) ∧
    httpErrMsg 404 "nope" ≠ "AI request timed out" :=
  ⟨c7_timeout_mapping.2.1 _ rfl,
   c7_timeout_mapping.2.2.1 _ rfl,
   c7_timeout_mapping.2.2.2.1 404 (.noStream "nope") (by decide),
   c7_timeout_mapping.2.2.2.2 404 "nope"⟩

/-! ## Session-token bookkeeping -/

theorem requestId_onContentClear (st : UiState) :
    (onContentClear st).requestId = st.requestId + 1 := rfl

theorem requestId_contentUpdateEntry (shift : Bool) (st : UiState) :
    ((contentUpdateEntry shift st).1).requestId = st.requestId + 1 := by
  cases shift <;> simp [contentUpdateEntry]

theorem requestId_requestExplainEntry (st : UiState) :
    ((requestExplainEntry st).1).requestId = st.requestId + 1 := rfl

theorem requestId_explainAfterSettings (captured : Nat) (settings : AiSettings) (st : UiState) :
    (explainAfterSettings captured settings st).requestId = st.requestId := by
  unfold explainAfterSettings
  split
  · rfl
  · split <;> rfl

theorem requestId_explainOnText (captured : Nat) (partialText : String) (st : UiState) :
    (explainOnText captured partialText st).requestId = st.requestId := by
  unfold explainOnText
  split
  · rfl
  · split <;> rfl

theorem requestId_explainFinal (captured : Nat) (resultText : String) (st : UiState) :
    (explainFinal captured resultText st).requestId = st.requestId := by
  unfold explainFinal
  split
  · rfl
  · split <;> rfl

theorem requestId_explainCatch (captured : Nat) (errMsg : String) (st : UiState) :
    (explainCatch captured errMsg st).requestId = st.requestId := by
  unfold explainCatch
  split <;> rfl

theorem requestId_updateSettingsErr (captured : Nat) (st : UiState) :
    (updateSettingsErr captured st).requestId = st.requestId := rfl

theorem requestId_le_updateSettingsOk (captured : Nat) (settings : AiSettings)
    (query : Option String) (context : String) (st : UiState) :
    st.requestId ≤ (updateSettingsOk captured settings query context st).requestId := by
  unfold updateSettingsOk
  split
  · exact Nat.le_refl _
  · split
    · exact Nat.le_refl _
    · rw [requestId_explainAfterSettings, requestId_requestExplainEntry]
      exact Nat.le_succ _

theorem requestId_le_onButtonClick (shift : Bool) (st : UiState) :
    st.requestId ≤ (onButtonClick shift st).requestId := by
  unfold onButtonClick
  split
  · split
    · exact Nat.le_refl _
    · split
      · rw [requestId_explainAfterSettings, requestId_requestExplainEntry]
        exact Nat.le_succ _
      · rw [requestId_requestExplainEntry]
        exact Nat.le_succ _
  · exact Nat.le_refl _

theorem uiStep_requestId_mono {s s' : UiState} (h : UiStep s s') :
    s.requestId ≤ s'.requestId := by
  cases h with
  | clear st => rw [requestId_onContentClear]; exact Nat.le_succ _
  | update shift st => rw [requestId_contentUpdateEntry]; exact Nat.le_succ _
  | settingsOk captured settings query context st => exact requestId_le_updateSettingsOk ..
  | settingsErr captured st => rw [requestId_updateSettingsErr]
  | click shift st => exact requestId_le_onButtonClick ..
  | afterSettings captured settings st => rw [requestId_explainAfterSettings]
  | onText captured partialText st => rw [requestId_explainOnText]
  | streamDone captured resultText st => rw [requestId_explainFinal]
  | failed captured errMsg st => rw [requestId_explainCatch]

theorem uiReach_requestId_lt {t : Nat} {st s' : UiState} (h : t < st.requestId)
    (hr : UiReach st s') : t < s'.requestId := by
  induction hr with
  | refl => exact h
  | tail _ hstep ih => exact Nat.lt_of_lt_of_le ih (uiStep_requestId_mono hstep)

/-! ## C9 -/

/-- C9: every invocation of `_requestExplain` — both the auto-mode call
inside `updateSettingsOk` and the button-click call inside `onButtonClick`
route through `requestExplainEntry` by definition — increments the token
at entry and captures the incremented value, so the captured token is the
unique current one; every atomic step keeps the token non-decreasing; and
once an explain entry has run, any token issued earlier can never again be
the current token in any reachable state: every continuation of an earlier
in-flight request is superseded for good. -/
theorem c9_entry_token_supersedes :
    (∀ st : UiState, (requestExplainEntry st).2 = st.requestId + 1 ∧
      ((requestExplainEntry st).1).requestId = st.requestId + 1) ∧
    (∀ s s' : UiState, UiStep s s' → s.requestId ≤ s'.requestId) ∧
    (∀ (st s' : UiState) (t : Nat), t ≤ st.requestId →
      UiReach (requestExplainEntry st).1 s' → t ≠ s'.requestId) := by
  refine ⟨fun st => ⟨rfl, rfl⟩, fun s s' h => uiStep_requestId_mono h, ?_⟩
  intro st s' t ht hr
  have h0 : t < ((requestExplainEntry st).1).requestId := by
    rw [requestId_requestExplainEntry]
    omega
  exact Nat.ne_of_lt (uiReach_requestId_lt h0 hr)

theorem c9_witness :
    (1 : Nat) ≠ ((requestExplainEntry sampleState).1).requestId ∧
    sampleState.requestId ≤ (onContentClear sampleState).requestId :=
  ⟨c9_entry_token_supersedes.2.2 sampleState ((requestExplainEntry sampleState).1) 1
      (by decide) Relation.ReflTransGen.refl,
   c9_entry_token_supersedes.2.1 sampleState (onContentClear sampleState)
      (UiStep.clear sampleState)⟩

/-! ## C1 -/

/-- C1 counterexample: the error branch of the settings fetch in
`_onContentUpdateStart` (lines 97-105) performs externally visible
mutations with no staleness check: resuming with stale captured token 1
while the current token is 2 still rewrites the status line, the
visibility flags, the content and the settings cache — the claim's "this
covers the error branch of the settings fetch" is false on the code. -/
theorem c1_counterexample_settings_error_branch :
    (1 : Nat) ≠ sampleState.requestId ∧
    updateSettingsErr 1 sampleState ≠ sampleState ∧
    (updateSettingsErr 1 sampleState).status = "AI settings unavailable." ∧
    sampleState.status = "s0" ∧
    (updateSettingsErr 1 sampleState).settings = none ∧
    sampleState.settings ≠ none := by
  refine ⟨by decide, by decide, rfl, rfl, rfl, by decide⟩

/-- C1 amended: every asynchronous continuation of a lookup **except the
settings-fetch error branch** — the settings-fetch success branch, the
post-settings continuation of `_requestExplain`, the stream partial
callback, the stream completion, and the request error handler — returns
without any externally visible mutation (no status text, content text,
rendered structure, or settings-cache write) when the token it captured is
no longer current; the settings-fetch error branch performs its mutations
unconditionally. -/
theorem c1_stale_continuations_mutate_nothing :
    ∀ (captured : Nat) (st : UiState), captured ≠ st.requestId →
      (∀ (settings : AiSettings) (query : Option String) (context : String),
        updateSettingsOk captured settings query context st = st) ∧
      (∀ settings : AiSettings, explainAfterSettings captured settings st = st) ∧
      (∀ partialText : String, explainOnText captured partialText st = st) ∧
      (∀ resultText : String, explainFinal captured resultText st = st) ∧
      (∀ errMsg : String, explainCatch captured errMsg st = st) := by
  intro captured st h
  refine ⟨?_, ?_, ?_, ?_, ?_⟩
  · intro settings query context
    simp [updateSettingsOk, h]
  · intro settings
    simp [explainAfterSettings, h]
  · intro partialText
    simp [explainOnText, h]
  · intro resultText
    simp [explainFinal, h]
  · intro errMsg
    simp [explainCatch, h]

theorem c1_witness :
    updateSettingsOk 1 ⟨"manual", "u", "k", "m", "p"⟩ (some "w") "ctx" sampleState = sampleState ∧
    explainAfterSettings 1 ⟨"auto", "", "k", "m", "p"⟩ sampleState = sampleState ∧
    explainOnText 1 "partial" sampleState = sampleState ∧
    explainFinal 1 "done" sampleState = sampleState ∧
    explainCatch 1 "boom" sampleState = sampleState :=
  ⟨(c1_stale_continuations_mutate_nothing 1 sampleState (by decide)).1 _ _ _,
   (c1_stale_continuations_mutate_nothing 1 sampleState (by decide)).2.1 _,
   (c1_stale_continuations_mutate_nothing 1 sampleState (by decide)).2.2.1 _,
   (c1_stale_continuations_mutate_nothing 1 sampleState (by decide)).2.2.2.1 _,
   (c1_stale_continuations_mutate_nothing 1 sampleState (by decide)).2.2.2.2 _⟩

/-! ## Parser structure lemmas (towards C3) -/

theorem skipWs_suffix (s : List Char) : List.IsSuffix (skipWs s) s :=
  List.dropWhile_suffix jsonWs

theorem skipWs_decomp (s : List Char) : ∃ w, s = w ++ skipWs s ∧ ∀ c ∈ w, jsonWs c = true := by
  refine ⟨s.takeWhile jsonWs, ?_, fun c hc => List.mem_takeWhile_imp hc⟩
  rw [skipWs, List.takeWhile_append_dropWhile]

theorem skipWs_nil_all_ws {r : List Char} (h : skipWs r = []) : ∀ c ∈ r, jsonWs c = true :=
  List.dropWhile_eq_nil_iff.mp h

theorem dropWhile_head_false {p : Char → Bool} {l r : List Char} {c : Char}
    (h : l.dropWhile p = c :: r) : p c = false := by
  induction l with
  | nil => exact absurd h (by simp)
  | cons a l ih =>
    rw [List.dropWhile_cons] at h
    by_cases hp : p a
    · rw [if_pos hp] at h
      exact ih h
    · rw [if_neg hp] at h
      cases h
      exact Bool.not_eq_true _ ▸ (by simpa using hp)

theorem suffix_cons_of (c : Char) {a l : List Char} (h : List.IsSuffix a l) :
    List.IsSuffix a (c :: l) :=
  h.trans (List.suffix_cons c l)

set_option maxHeartbeats 2000000 in
theorem parseStrBody_suffix :
    ∀ (fuel : Nat) (s cs r : List Char), parseStrBody fuel s = some (cs, r) →
      List.IsSuffix r s := by
  intro fuel
  induction fuel with
  | zero =>
    intro s cs r h
    exact absurd h (by simp [parseStrBody])
  | succ fuel ih =>
    have key : ∀ (rX : List Char) (f : List Char × List Char → List Char × List Char)
        (cs r : List Char), (parseStrBody fuel rX).map f = some (cs, r) →
        (∀ p, (f p).2 = p.2) → List.IsSuffix r rX := by
      intro rX f cs r h hf
      rw [Option.map_eq_some'] at h
      obtain ⟨⟨cs', r'⟩, hin, heq⟩ := h
      have hr : r' = r := by
        have h3 := congrArg Prod.snd heq
        rw [hf] at h3
        exact h3
      exact hr ▸ ih rX cs' r' hin
    intro s cs r h
    unfold parseStrBody at h
    iterate 8 (all_goals (try dsimp only at h); all_goals (try split at h))
    all_goals
      first
        | exact Option.noConfusion h
        | (rw [Option.some.injEq, Prod.mk.injEq] at h
           rw [← h.2]
           exact List.suffix_cons _ _)
        | (refine (key _ _ _ _ h (fun p => rfl)).trans ?_
           repeat (first | exact List.suffix_rfl | apply suffix_cons_of))

theorem parseFrac_suffix {s f r : List Char} (h : parseFrac s = some (f, r)) :
    List.IsSuffix r s := by
  unfold parseFrac at h
  split at h
  · split at h
    · exact Option.noConfusion h
    · rw [Option.some.injEq, Prod.mk.injEq] at h
      rw [← h.2]
      exact (List.dropWhile_suffix _).trans (List.suffix_cons _ _)
  · rw [Option.some.injEq, Prod.mk.injEq] at h
    rw [← h.2]

theorem parseExp_suffix {s f r : List Char} (h : parseExp s = some (f, r)) :
    List.IsSuffix r s := by
  unfold parseExp at h
  split at h <;>
    first
      | (split at h
         · exact Option.noConfusion h
         · rw [Option.some.injEq, Prod.mk.injEq] at h
           rw [← h.2]
           refine (List.dropWhile_suffix _).trans ?_
           repeat (first | exact List.suffix_rfl | apply suffix_cons_of))
      | (rw [Option.some.injEq, Prod.mk.injEq] at h
         rw [← h.2])

theorem numTail_suffix {sign ip s : List Char} {v : Json} {r : List Char}
    (h : parseNum.numTail sign ip s = some (v, r)) : List.IsSuffix r s := by
  unfold parseNum.numTail at h
  split at h
  · exact Option.noConfusion h
  · rename_i fp s2 hfrac
    split at h
    · exact Option.noConfusion h
    · rename_i ep s3 hexp
      rw [Option.some.injEq, Prod.mk.injEq] at h
      rw [← h.2]
      exact (parseExp_suffix hexp).trans (parseFrac_suffix hfrac)

theorem numTail_is_num {sign ip s : List Char} {v : Json} {r : List Char}
    (h : parseNum.numTail sign ip s = some (v, r)) : ∃ lexeme, v = Json.num lexeme := by
  unfold parseNum.numTail at h
  split at h
  · exact Option.noConfusion h
  · split at h
    · exact Option.noConfusion h
    · rw [Option.some.injEq, Prod.mk.injEq] at h
      exact ⟨_, h.1.symm⟩

theorem parseNum_suffix {s : List Char} {v : Json} {r : List Char}
    (h : parseNum s = some (v, r)) : List.IsSuffix r s := by
  unfold parseNum at h
  dsimp only at h
  split at h
  · exact Option.noConfusion h
  · rename_i s1 c r1 heq
    split at h
    · have hs : List.IsSuffix r r1 := (numTail_suffix h).trans List.suffix_rfl
      split at heq <;> dsimp only at heq
      · rw [heq]
        exact suffix_cons_of _ (suffix_cons_of _ hs)
      · rw [heq]
        exact suffix_cons_of _ hs
    · split at h
      · have hs : List.IsSuffix r r1 := (numTail_suffix h).trans (List.dropWhile_suffix _)
        split at heq <;> dsimp only at heq
        · rw [heq]
          exact suffix_cons_of _ (suffix_cons_of _ hs)
        · rw [heq]
          exact suffix_cons_of _ hs
      · exact Option.noConfusion h

theorem parseNum_is_num {s : List Char} {v : Json} {r : List Char}
    (h : parseNum s = some (v, r)) : ∃ lexeme, v = Json.num lexeme := by
  unfold parseNum at h
  dsimp only at h
  split at h
  · exact Option.noConfusion h
  · split at h
    · exact numTail_is_num h
    · split at h
      · exact numTail_is_num h
      · exact Option.noConfusion h

theorem skipWs_cons_suffix {t rest : List Char} {c : Char} (h : skipWs t = c :: rest) :
    List.IsSuffix rest t :=
  List.IsSuffix.trans ⟨[c], h.symm⟩ (skipWs_suffix t)

set_option maxHeartbeats 2000000 in
theorem parse_suffix :
    ∀ fuel : Nat,
      (∀ (s : List Char) (v : Json) (r : List Char),
        parseVal fuel s = some (v, r) → List.IsSuffix r s) ∧
      (∀ (s : List Char) (acc kvs : List (String × Json)) (r : List Char),
        parseMembers fuel s acc = some (kvs, r) → List.IsSuffix r s) ∧
      (∀ (s : List Char) (acc xs : List Json) (r : List Char),
        parseElems fuel s acc = some (xs, r) → List.IsSuffix r s) := by
  intro fuel
  induction fuel with
  | zero =>
    refine ⟨?_, ?_, ?_⟩
    · intro s v r h
      exact Option.noConfusion h
    · intro s acc kvs r h
      exact Option.noConfusion h
    · intro s acc xs r h
      exact Option.noConfusion h
  | succ fuel ih =>
    obtain ⟨ihV, ihM, ihE⟩ := ih
    refine ⟨?_, ?_, ?_⟩
    · intro s v r h
      unfold parseVal at h
      split at h
      · -- skipWs s = '{' :: r0
        rename_i r0 heq
        split at h
        · -- empty object
          rename_i r2 heq2
          rw [Option.some.injEq, Prod.mk.injEq] at h
          rw [← h.2]
          exact (skipWs_cons_suffix heq2).trans (skipWs_cons_suffix heq)
        · split at h
          · rename_i kvs r2 hm
            rw [Option.some.injEq, Prod.mk.injEq] at h
            rw [← h.2]
            exact (ihM r0 [] kvs r2 hm).trans (skipWs_cons_suffix heq)
          · exact Option.noConfusion h
      · -- skipWs s = '[' :: r0
        rename_i r0 heq
        split at h
        · rename_i r2 heq2
          rw [Option.some.injEq, Prod.mk.injEq] at h
          rw [← h.2]
          exact (skipWs_cons_suffix heq2).trans (skipWs_cons_suffix heq)
        · split at h
          · rename_i xs r2 he
            rw [Option.some.injEq, Prod.mk.injEq] at h
            rw [← h.2]
            exact (ihE r0 [] xs r2 he).trans (skipWs_cons_suffix heq)
          · exact Option.noConfusion h
      · -- skipWs s = '"' :: r0
        rename_i r0 heq
        split at h
        · rename_i cs r2 hsb
          rw [Option.some.injEq, Prod.mk.injEq] at h
          rw [← h.2]
          exact (parseStrBody_suffix _ r0 cs r2 hsb).trans (skipWs_cons_suffix heq)
        · exact Option.noConfusion h
      · -- true
        rename_i rT heq
        rw [Option.some.injEq, Prod.mk.injEq] at h
        rw [← h.2]
        exact List.IsSuffix.trans ⟨['t', 'r', 'u', 'e'], heq.symm⟩ (skipWs_suffix s)
      · -- false
        rename_i rT heq
        rw [Option.some.injEq, Prod.mk.injEq] at h
        rw [← h.2]
        exact List.IsSuffix.trans ⟨['f', 'a', 'l', 's', 'e'], heq.symm⟩ (skipWs_suffix s)
      · -- null
        rename_i rT heq
        rw [Option.some.injEq, Prod.mk.injEq] at h
        rw [← h.2]
        exact List.IsSuffix.trans ⟨['n', 'u', 'l', 'l'], heq.symm⟩ (skipWs_suffix s)
      · -- number
        rename_i heq1 heq2 heq3 heq4 heq5 heq6
        exact (parseNum_suffix h).trans (skipWs_suffix s)
    · intro s acc kvs r h
      unfold parseMembers at h
      split at h
      · rename_i r0 heq
        split at h
        · exact Option.noConfusion h
        · rename_i k r2 hsb
          split at h
          · rename_i r3 heq2
            split at h
            · exact Option.noConfusion h
            · rename_i vv r4 hv
              split at h
              · rename_i r5 heq3
                exact (ihM r5 _ kvs r h).trans ((skipWs_cons_suffix heq3).trans
                  ((ihV r3 vv r4 hv).trans ((skipWs_cons_suffix heq2).trans
                    ((parseStrBody_suffix _ r0 k r2 hsb).trans (skipWs_cons_suffix heq)))))
              · rename_i r5 heq3
                rw [Option.some.injEq, Prod.mk.injEq] at h
                rw [← h.2]
                exact (skipWs_cons_suffix heq3).trans
                  ((ihV r3 vv r4 hv).trans ((skipWs_cons_suffix heq2).trans
                    ((parseStrBody_suffix _ r0 k r2 hsb).trans (skipWs_cons_suffix heq))))
              · exact Option.noConfusion h
          · exact Option.noConfusion h
      · exact Option.noConfusion h
    · intro s acc xs r h
      unfold parseElems at h
      split at h
      · exact Option.noConfusion h
      · rename_i v0 r0 hv
        split at h
        · rename_i r2 heq
          exact (ihE r2 _ xs r h).trans ((skipWs_cons_suffix heq).trans (ihV s v0 r0 hv))
        · rename_i r2 heq
          rw [Option.some.injEq, Prod.mk.injEq] at h
          rw [← h.2]
          exact (skipWs_cons_suffix heq).trans (ihV s v0 r0 hv)
        · exact Option.noConfusion h

set_option maxHeartbeats 2000000 in
theorem parseMembers_closes :
    ∀ (fuel : Nat) (s : List Char) (acc kvs : List (String × Json)) (r : List Char),
      parseMembers fuel s acc = some (kvs, r) → ∃ pre, s = pre ++ '}' :: r := by
  intro fuel
  induction fuel with
  | zero =>
    intro s acc kvs r h
    exact Option.noConfusion h
  | succ fuel ih =>
    intro s acc kvs r h
    unfold parseMembers at h
    split at h
    · rename_i r0 heq
      split at h
      · exact Option.noConfusion h
      · rename_i k r2 hsb
        split at h
        · rename_i r3 heq2
          split at h
          · exact Option.noConfusion h
          · rename_i vv r4 hv
            split at h
            · rename_i r5 heq3
              obtain ⟨pre5, hpre5⟩ := ih r5 _ kvs r h
              obtain ⟨w0, hw0, -⟩ := skipWs_decomp s
              obtain ⟨p1, hp1⟩ := parseStrBody_suffix _ r0 k r2 hsb
              obtain ⟨w2, hw2, -⟩ := skipWs_decomp r2
              obtain ⟨p2, hp2⟩ := (parse_suffix fuel).1 r3 vv r4 hv
              obtain ⟨w3, hw3, -⟩ := skipWs_decomp r4
              rw [heq] at hw0
              rw [heq2] at hw2
              rw [heq3] at hw3
              refine ⟨w0 ++ '"' :: (p1 ++ (w2 ++ ':' :: (p2 ++ (w3 ++ ',' :: pre5)))), ?_⟩
              rw [hw0, ← hp1, hw2, ← hp2, hw3, hpre5]
              simp [List.append_assoc]
            · rename_i r5 heq3
              rw [Option.some.injEq, Prod.mk.injEq] at h
              obtain ⟨w0, hw0, -⟩ := skipWs_decomp s
              obtain ⟨p1, hp1⟩ := parseStrBody_suffix _ r0 k r2 hsb
              obtain ⟨w2, hw2, -⟩ := skipWs_decomp r2
              obtain ⟨p2, hp2⟩ := (parse_suffix fuel).1 r3 vv r4 hv
              obtain ⟨w3, hw3, -⟩ := skipWs_decomp r4
              rw [heq] at hw0
              rw [heq2] at hw2
              rw [heq3] at hw3
              refine ⟨w0 ++ '"' :: (p1 ++ (w2 ++ ':' :: (p2 ++ w3))), ?_⟩
              rw [← h.2, hw0, ← hp1, hw2, ← hp2, hw3]
              simp [List.append_assoc]
            · exact Option.noConfusion h
        · exact Option.noConfusion h
    · exact Option.noConfusion h

set_option maxHeartbeats 2000000 in
theorem parseVal_obj {fuel : Nat} {s : List Char} {kvs : List (String × Json)} {r : List Char}
    (h : parseVal fuel s = some (Json.obj kvs, r)) :
    (∃ r0, skipWs s = '{' :: r0) ∧ (∃ pre, s = pre ++ '}' :: r) := by
  cases fuel with
  | zero => exact Option.noConfusion h
  | succ fuel =>
    unfold parseVal at h
    split at h
    · -- object branch
      rename_i r0 heq
      refine ⟨⟨r0, heq⟩, ?_⟩
      split at h
      · rename_i r2 heq2
        rw [Option.some.injEq, Prod.mk.injEq] at h
        obtain ⟨w0, hw0, -⟩ := skipWs_decomp s
        obtain ⟨w2, hw2, -⟩ := skipWs_decomp r0
        rw [heq] at hw0
        rw [heq2] at hw2
        refine ⟨w0 ++ '{' :: w2, ?_⟩
        rw [hw0, hw2, ← h.2]
        simp [List.append_assoc]
      · split at h
        · rename_i kvs2 r2 hm
          rw [Option.some.injEq, Prod.mk.injEq] at h
          obtain ⟨pre0, hpre0⟩ := parseMembers_closes fuel r0 [] kvs2 r2 hm
          obtain ⟨w0, hw0, -⟩ := skipWs_decomp s
          rw [heq] at hw0
          refine ⟨w0 ++ '{' :: pre0, ?_⟩
          rw [hw0, hpre0, ← h.2]
          simp [List.append_assoc]
        · exact Option.noConfusion h
    · -- array branch: value is .arr, contradiction
      split at h
      · rw [Option.some.injEq, Prod.mk.injEq] at h
        exact Json.noConfusion h.1
      · split at h
        · rw [Option.some.injEq, Prod.mk.injEq] at h
          exact Json.noConfusion h.1
        · exact Option.noConfusion h
    · split at h
      · rw [Option.some.injEq, Prod.mk.injEq] at h
        exact Json.noConfusion h.1
      · exact Option.noConfusion h
    · rw [Option.some.injEq, Prod.mk.injEq] at h
      exact Json.noConfusion h.1
    · rw [Option.some.injEq, Prod.mk.injEq] at h
      exact Json.noConfusion h.1
    · rw [Option.some.injEq, Prod.mk.injEq] at h
      exact Json.noConfusion h.1
    · obtain ⟨lexeme, hlex⟩ := parseNum_is_num h
      exact Json.noConfusion hlex

/-! ## Trimming facts -/

theorem jsTrimEnd_getLast_not_ws {m : List Char} {c : Char}
    (h : (jsTrimEnd m).getLast? = some c) : jsWs c = false := by
  rw [jsTrimEnd, List.getLast?_reverse] at h
  cases hl : (m.reverse.dropWhile jsWs) with
  | nil => rw [hl] at h; exact Option.noConfusion h
  | cons a t =>
    rw [hl] at h
    have : a = c := Option.some.inj h
    exact this ▸ dropWhile_head_false hl

theorem jsTrimL_getLast_not_ws {x : List Char} {c : Char}
    (h : (jsTrimL x).getLast? = some c) : jsWs c = false :=
  jsTrimEnd_getLast_not_ws h

theorem jsTrimL_head_not_ws {x : List Char} {c : Char} {t : List Char}
    (h : jsTrimL x = c :: t) : jsWs c = false := by
  rw [jsTrimL, jsTrimEnd] at h
  obtain ⟨w, hw⟩ := List.dropWhile_suffix (l := (jsTrimStart x).reverse) jsWs
  have hm : jsTrimStart x = (c :: t) ++ w.reverse := by
    have := congrArg List.reverse hw
    rw [List.reverse_append, List.reverse_reverse] at this
    rw [← this, h]
  have : jsTrimStart x = c :: (t ++ w.reverse) := by rw [hm]; rfl
  exact dropWhile_head_false this

theorem skipWs_jsTrimL (x : List Char) : skipWs (jsTrimL x) = jsTrimL x := by
  cases h : jsTrimL x with
  | nil => rfl
  | cons c t =>
    have hws : jsWs c = false := jsTrimL_head_not_ws h
    have hjw : jsonWs c = false := by
      cases hc : jsonWs c with
      | false => rfl
      | true => rw [jsonWs_imp_jsWs hc] at hws; exact Bool.noConfusion hws
    rw [skipWs, List.dropWhile_cons, if_neg (by rw [hjw]; exact Bool.false_ne_true)]

/-! ## C3 -/

/-- C3: `_tryParseJson` never throws (it is a total function); it returns
`null` whenever the trimmed input fails the structural pre-check (does not
both start with `{` and end with `}`); it returns `null` whenever the
strict JSON parse of the trimmed input throws — which by
`parseStrBody_suffix` / `parse_suffix` machinery covers in particular
every proper prefix of a valid object string, none of which parses; and
whenever the trimmed input parses as a complete JSON object it returns
exactly that object (the pre-check is then automatically satisfied: a
parsed object must open with `{` and, the parse being strict and the input
trimmed, must close with `}`). -/
theorem c3_tryparse_contract :
    ∀ s : String,
      (¬((jsTrimL s.data).head? = some '{' ∧ (jsTrimL s.data).getLast? = some '}') →
        tryParseJson s = none) ∧
      (jsonParseL (jsTrimL s.data) = none → tryParseJson s = none) ∧
      (∀ kvs, jsonParseL (jsTrimL s.data) = some (Json.obj kvs) →
        tryParseJson s = some (Json.obj kvs)) := by
  intro s
  refine ⟨?_, ?_, ?_⟩
  · intro h
    rw [tryParseJson, if_neg h]
  · intro h
    rw [tryParseJson]
    split
    · exact h
    · rfl
  · intro kvs h
    have h' := h
    unfold jsonParseL at h'
    split at h'
    · rename_i v r hpv
      split at h'
      · rename_i hr
        have hv : v = Json.obj kvs := Option.some.inj h'
        subst hv
        obtain ⟨⟨r0, hopen⟩, ⟨pre, hclose⟩⟩ := parseVal_obj hpv
        rw [skipWs_jsTrimL] at hopen
        have hhead : (jsTrimL s.data).head? = some '{' := by rw [hopen]; rfl
        have hlast : (jsTrimL s.data).getLast? = some '}' := by
          rcases List.eq_nil_or_concat r with hr0 | ⟨r1, c, hr1⟩
          · subst hr0
            rw [hclose]
            have : pre ++ '}' :: ([] : List Char) = pre ++ ['}'] := rfl
            rw [this, List.getLast?_concat]
          · exfalso
            have hcws : jsonWs c = true := by
              refine skipWs_nil_all_ws hr c ?_
              rw [hr1]
              simp
            have hlastc : (jsTrimL s.data).getLast? = some c := by
              rw [hclose, hr1, List.concat_eq_append]
              have : pre ++ '}' :: (r1 ++ [c]) = (pre ++ '}' :: r1) ++ [c] := by
                simp [List.append_assoc]
              rw [this, List.getLast?_concat]
            have := jsTrimL_getLast_not_ws hlastc
            rw [jsonWs_imp_jsWs hcws] at this
            exact Bool.noConfusion this
        rw [tryParseJson, if_pos ⟨hhead, hlast⟩]
        exact h
      · exact Option.noConfusion h'
    · exact Option.noConfusion h'

theorem c3_witness :
    tryParseJson "0" = none ∧
    tryParseJson "\x7b\"title\":\"A\"" = none ∧
    tryParseJson "\x7b\"title\":\"A\"\x7d" = some (Json.obj [("title", Json.str "A")]) :=
  ⟨(c3_tryparse_contract "0").1 (by decide),
   (c3_tryparse_contract "\x7b\"title\":\"A\"").2.1 rfl,
   (c3_tryparse_contract "\x7b\"title\":\"A\"\x7d").2.2 [("title", Json.str "A")] rfl⟩

/-! ## C8 -/

/-- C8: rendering a parsed result object produces, in order, a header
whose title is the `title` field if that is a non-empty string, else the
`word` field if non-empty, else the generic label `"AI"`, with a word
badge exactly when `word` is non-empty; then the Meaning, In context and
Usage sections, each omitted entirely when its (defensively extracted)
text trims to nothing; then an Examples section omitted exactly when the
examples list is empty, whose rendered entries never carry an empty text
or explain line and never lack both; mistyped fields are read as absent
(`""` / `[]`) rather than raising.  Rendering is a pure function of the
parsed value, so it fully replaces prior content. -/
theorem c8_render_structure :
    (∀ kvs : List (String × Json),
      setContentRendered (Json.obj kvs) = ContentView.doc (renderObj (Json.obj kvs)) ∧
      ∃ rest, renderObj (Json.obj kvs) =
          RNode.header
            (if strField (Json.obj kvs) "title" ≠ "" then strField (Json.obj kvs) "title"
             else if strField (Json.obj kvs) "word" ≠ "" then strField (Json.obj kvs) "word"
             else "AI")
            (if strField (Json.obj kvs) "word" ≠ "" then some (strField (Json.obj kvs) "word")
             else none) :: rest ∧
        rest =
          (if jsTrimL (strField (Json.obj kvs) "meaning").data = [] then []
           else [RNode.section "Meaning" (strField (Json.obj kvs) "meaning")]) ++
          (if jsTrimL (strField (Json.obj kvs) "meaning_in_context").data = [] then []
           else [RNode.section "In context" (strField (Json.obj kvs) "meaning_in_context")]) ++
          (if jsTrimL (strField (Json.obj kvs) "usage").data = [] then []
           else [RNode.section "Usage" (strField (Json.obj kvs) "usage")]) ++
          (if (arrField (Json.obj kvs) "examples").isEmpty then []
           else [RNode.examplesSec
                  ((arrField (Json.obj kvs) "examples").filterMap exampleItemOf)])) ∧
    (∀ (e : Json) (item : ExampleItem), exampleItemOf e = some item →
      item.text ≠ some "" ∧ item.explain ≠ some "" ∧ ¬(item.text = none ∧ item.explain = none)) ∧
    (∀ (j : Json) (k : String), (∀ s, jGet j k ≠ some (Json.str s)) → strField j k = "") ∧
    (∀ (j : Json) (k : String), (∀ xs, jGet j k ≠ some (Json.arr xs)) → arrField j k = []) := by
  refine ⟨?_, ?_, ?_, ?_⟩
  · intro kvs
    refine ⟨rfl, ?_⟩
    refine ⟨_, ?_, rfl⟩
    unfold renderObj
    by_cases ht : strField (Json.obj kvs) "title" = "" <;>
      by_cases hw : strField (Json.obj kvs) "word" = "" <;>
        simp [ht, hw, sectionNodes]
  · intro e item h
    unfold exampleItemOf at h
    by_cases ho : jsIsObject e = true
    · rw [if_pos ho] at h
      by_cases hb : strField e "text" = "" ∧ strField e "explain" = ""
      · rw [if_pos hb] at h
        exact absurd h (by simp)
      · rw [if_neg hb] at h
        have hitem := Option.some.inj h
        subst hitem
        refine ⟨?_, ?_, ?_⟩
        · by_cases htx : strField e "text" = ""
          · simp [htx]
          · simp [htx]
        · by_cases hex : strField e "explain" = ""
          · simp [hex]
          · simp [hex]
        · by_cases htx : strField e "text" = ""
          · by_cases hex : strField e "explain" = ""
            · exact absurd ⟨htx, hex⟩ hb
            · simp [htx, hex]
          · simp [htx]
    · rw [if_neg ho] at h
      exact absurd h (by simp)
  · intro j k h
    unfold strField
    cases hj : jGet j k with
    | none => rfl
    | some v => cases v <;> first | rfl | exact absurd hj (h _)
  · intro j k h
    unfold arrField
    cases hj : jGet j k with
    | none => rfl
    | some v => cases v <;> first | rfl | exact absurd hj (h _)

theorem c8_witness :
    (setContentRendered (Json.obj [("title", Json.num "5"), ("meaning", Json.str "m")]) =
      ContentView.doc [RNode.header "AI" none, RNode.section "Meaning" "m"]) ∧
    (∀ item, exampleItemOf (Json.obj [("text", Json.str "t")]) = some item →
      item.text ≠ some "") ∧
    strField (Json.obj [("title", Json.num "5")]) "title" = "" ∧
    arrField (Json.obj [("examples", Json.str "no")]) "examples" = [] := by
  refine ⟨?_, ?_, ?_, ?_⟩
  · obtain ⟨h1, rest, h2, h3⟩ :=
      (c8_render_structure.1 [("title", Json.num "5"), ("meaning", Json.str "m")])
    rw [h1, h2, h3]
    decide
  · intro item h
    exact ((c8_render_structure.2.1 _ item h).1)
  · exact c8_render_structure.2.2.1 (Json.obj [("title", Json.num "5")]) "title"
      (fun s hcontra => Json.noConfusion (Option.some.inj hcontra))
  · exact c8_render_structure.2.2.2 (Json.obj [("examples", Json.str "no")]) "examples"
      (fun xs hcontra => Json.noConfusion (Option.some.inj hcontra))

end DisplayAi
